import Mathlib

/-!
Shallow embedding of the ant-colony foraging simulation
(`model.py` / `agents.py`) and verification of its specification claims.

Pheromone strengths are idealized as elements of a linear ordered field
(instantiated at `ℚ` for concrete evaluation and at `ℝ` where the source
computes square roots or real powers).  Grid positions are integer pairs;
the grid is a torus of width `W` and height `H`, with all stored positions
wrapped into `[0,W) × [0,H)`.
-/

namespace AntColony

/-- The two pheromone trail types of the dual-pheromone system. -/
inductive PherType
  | toNest
  | toFood
deriving DecidableEq, Repr

/-- One live pheromone: its grid cell, its type, and its current strength
(mirrors `PheromoneAgent` in `agents.py`). -/
structure Pher (α : Type) where
  pos : ℤ × ℤ
  ptype : PherType
  strength : α
deriving DecidableEq

/-- The pheromone field: the list of all live pheromone agents, in the order
they were added to the grid/schedule. -/
abbrev Field (α : Type) := List (Pher α)

/-- Squared Euclidean distance between two integer grid positions.  The source
compares `((x-nx)**2 + (y-ny)**2) ** 0.5` against constants; comparisons of
those square roots are equivalent to comparisons of these integer squares. -/
def distSqZ (a b : ℤ × ℤ) : ℤ :=
  (a.1 - b.1) ^ 2 + (a.2 - b.2) ^ 2

/-- The eight Moore offsets (radius 1, center excluded). -/
def mooreOffsets : List (ℤ × ℤ) :=
  [(-1, -1), (-1, 0), (-1, 1), (0, -1), (0, 1), (1, -1), (1, 0), (1, 1)]

/-- Torus wrap of a raw coordinate pair into `[0,W) × [0,H)`. -/
def wrapPos (W H : ℤ) (p : ℤ × ℤ) : ℤ × ℤ :=
  (p.1 % W, p.2 % H)

/-- `grid.get_neighborhood(pos, moore=True, include_center=False, radius=1)`
on the torus grid: the eight Moore neighbours, wrapped. -/
def neighborhood (W H : ℤ) (p : ℤ × ℤ) : List (ℤ × ℤ) :=
  mooreOffsets.map fun d => wrapPos W H (p.1 + d.1, p.2 + d.2)

section FieldOps

variable {α : Type} [LinearOrderedField α]

/-- `AntColonyModel._add_or_reinforce_pheromone`: scan the field for a live
pheromone with the same position and type; if found, reinforce it to
`min(3.0, existing + strength*0.5)`; otherwise create a new pheromone with
exactly the given strength, but only if `strength >= 0.2`. -/
def addOrReinforce (pos : ℤ × ℤ) (v : α) (t : PherType) : Field α → Field α
  | [] => if 2 / 10 ≤ v then [⟨pos, t, v⟩] else []
  | ph :: rest =>
      if ph.pos = pos ∧ ph.ptype = t then
        { ph with strength := min 3 (ph.strength + v * (1 / 2)) } :: rest
      else
        ph :: addOrReinforce pos v t rest

/-- The evaporation factor a pheromone of the given type uses
(`PheromoneAgent.step` reads `to_nest_evaporation` for `"to_nest"` and
`to_food_evaporation` otherwise). -/
def typeFactor (fN fF : α) : PherType → α
  | .toNest => fN
  | .toFood => fF

/-- The aggregate effect of every `PheromoneAgent.step` in one schedule pass:
each pheromone's strength is multiplied by its type's evaporation factor, and
it is removed exactly when the new strength is `< 0.05`. -/
def decayAll (fN fF : α) (f : Field α) : Field α :=
  (f.map fun ph =>
      { ph with strength := ph.strength * typeFactor fN fF ph.ptype }).filter
    fun ph => ¬ ph.strength < 5 / 100

/-- Whether the field holds a live pheromone with the given key. -/
def hasKey (pos : ℤ × ℤ) (t : PherType) (f : Field α) : Prop :=
  ∃ ph ∈ f, ph.pos = pos ∧ ph.ptype = t

/-- Number of live pheromones with the given (position, type) key. -/
def keyCount (pos : ℤ × ℤ) (t : PherType) (f : Field α) : ℕ :=
  (f.filter fun ph => ph.pos = pos ∧ ph.ptype = t).length

end FieldOps

section FieldLemmas

variable {α : Type} [LinearOrderedField α]

/-- If no pheromone with the key is present, `addOrReinforce` appends a fresh
pheromone of exactly the given strength when `0.2 ≤ v`, and does nothing
otherwise. -/
theorem addOrReinforce_of_not_hasKey {pos : ℤ × ℤ} {t : PherType} {v : α}
    {f : Field α} (h : ∀ ph ∈ f, ¬(ph.pos = pos ∧ ph.ptype = t)) :
    addOrReinforce pos v t f = if 2 / 10 ≤ v then f ++ [⟨pos, t, v⟩] else f := by
  induction f with
  | nil => simp [addOrReinforce]
  | cons ph rest ih =>
      have hph := h ph (by simp)
      have hrest : ∀ q ∈ rest, ¬(q.pos = pos ∧ q.ptype = t) := by
        intro q hq; exact h q (by simp [hq])
      simp only [addOrReinforce, if_neg hph, ih hrest]
      by_cases hv : (2 : α) / 10 ≤ v <;> simp [hv]

/-- If the first pheromone with the key is `ph` (after prefix `f₁` with no
match), `addOrReinforce` replaces `ph`'s strength by
`min 3 (ph.strength + v*0.5)` and changes nothing else. -/
theorem addOrReinforce_of_first_match {pos : ℤ × ℤ} {t : PherType} {v : α}
    (f₁ f₂ : Field α) (ph : Pher α)
    (h₁ : ∀ q ∈ f₁, ¬(q.pos = pos ∧ q.ptype = t))
    (hph : ph.pos = pos ∧ ph.ptype = t) :
    addOrReinforce pos v t (f₁ ++ ph :: f₂) =
      f₁ ++ { ph with strength := min 3 (ph.strength + v * (1 / 2)) } :: f₂ := by
  induction f₁ with
  | nil => simp [addOrReinforce, hph]
  | cons q rest ih =>
      have hq := h₁ q (by simp)
      have hrest : ∀ r ∈ rest, ¬(r.pos = pos ∧ r.ptype = t) := by
        intro r hr; exact h₁ r (by simp [hr])
      simp [addOrReinforce, if_neg hq, ih hrest]

/-- Key/strength bookkeeping of `addOrReinforce`, for invariant proofs: every
pheromone of the result either was already in the field or sits at `pos` (the
latter only created when `0.2 ≤ v`). -/
theorem mem_addOrReinforce {pos : ℤ × ℤ} {t : PherType} {v : α}
    {f : Field α} {ph : Pher α} (h : ph ∈ addOrReinforce pos v t f) :
    (∃ q ∈ f, ph.pos = q.pos) ∨ (ph.pos = pos ∧ 2 / 10 ≤ v) := by
  induction f with
  | nil =>
      by_cases hv : (2 : α) / 10 ≤ v
      · simp [addOrReinforce, hv] at h
        right; exact ⟨by simp [h], hv⟩
      · simp [addOrReinforce, hv] at h
  | cons q rest ih =>
      by_cases hq : q.pos = pos ∧ q.ptype = t
      · have h' : ph = { q with strength := min 3 (q.strength + v * (1 / 2)) } ∨
            ph ∈ rest := by
          simpa [addOrReinforce, hq] using h
        rcases h' with rfl | h'
        · left; exact ⟨q, by simp, rfl⟩
        · left; exact ⟨ph, by simp [h'], rfl⟩
      · have h' : ph = q ∨ ph ∈ addOrReinforce pos v t rest := by
          simpa [addOrReinforce, hq] using h
        rcases h' with rfl | h'
        · left; exact ⟨ph, by simp, rfl⟩
        · rcases ih h' with ⟨r, hr, hpr⟩ | hcase
          · left; exact ⟨r, by simp [hr], hpr⟩
          · right; exact hcase

/-- `decayAll` membership characterization: a pheromone is live after the
decay pass iff it arises from a pheromone of the old field with strength
multiplied by its type's factor, and that new strength is not below 0.05. -/
theorem mem_decayAll_iff (fN fF : α) (f : Field α) (ph : Pher α) :
    ph ∈ decayAll fN fF f ↔
      ∃ q ∈ f, ph.pos = q.pos ∧ ph.ptype = q.ptype ∧
        ph.strength = q.strength * typeFactor fN fF q.ptype ∧
        ¬ ph.strength < 5 / 100 := by
  simp only [decayAll, List.mem_filter, List.mem_map, decide_not]
  constructor
  · rintro ⟨⟨q, hq, rfl⟩, hkeep⟩
    refine ⟨q, hq, rfl, rfl, rfl, ?_⟩
    simpa using hkeep
  · rintro ⟨q, hq, hpos, hty, hstr, hkeep⟩
    refine ⟨⟨q, hq, ?_⟩, by simpa using hkeep⟩
    cases ph
    cases q
    simp_all

theorem keyCount_cons {α : Type} [LinearOrderedField α] (pos : ℤ × ℤ)
    (t : PherType) (ph : Pher α) (f : Field α) :
    keyCount pos t (ph :: f) =
      (if ph.pos = pos ∧ ph.ptype = t then 1 else 0) + keyCount pos t f := by
  simp only [keyCount, List.filter_cons]
  by_cases h : ph.pos = pos ∧ ph.ptype = t
  · simp [h, Nat.add_comm]
  · simp [h]

/-- `addOrReinforce` at key `(pos, t)` leaves the pheromone count of every
other key unchanged. -/
theorem keyCount_addOrReinforce_ne {α : Type} [LinearOrderedField α]
    (pos pos' : ℤ × ℤ) (t t' : PherType) (v : α) (f : Field α)
    (hne : ¬(pos' = pos ∧ t' = t)) :
    keyCount pos' t' (addOrReinforce pos v t f) = keyCount pos' t' f := by
  induction f with
  | nil =>
      by_cases hv : (2 : α) / 10 ≤ v
      · simp only [addOrReinforce, if_pos hv]
        rw [keyCount_cons]
        have hmk : ¬((pos : ℤ × ℤ) = pos' ∧ t = t') :=
          fun hk => hne ⟨hk.1.symm, hk.2.symm⟩
        simp [keyCount, hmk]
      · simp [addOrReinforce, hv]
  | cons ph rest ih =>
      by_cases hph : ph.pos = pos ∧ ph.ptype = t
      · simp only [addOrReinforce, if_pos hph]
        rw [keyCount_cons, keyCount_cons]
      · simp only [addOrReinforce, if_neg hph]
        rw [keyCount_cons, keyCount_cons, ih]

/-- `addOrReinforce` leaves at most one pheromone at its own key, whatever
the field held before at that key up to the invariant bound. -/
theorem keyCount_addOrReinforce_self {α : Type} [LinearOrderedField α]
    (pos : ℤ × ℤ) (t : PherType) (v : α) (f : Field α) :
    keyCount pos t (addOrReinforce pos v t f) ≤ max 1 (keyCount pos t f) := by
  induction f with
  | nil =>
      by_cases hv : (2 : α) / 10 ≤ v
      · simp [addOrReinforce, hv, keyCount]
      · simp [addOrReinforce, hv, keyCount]
  | cons ph rest ih =>
      by_cases hph : ph.pos = pos ∧ ph.ptype = t
      · simp only [addOrReinforce, if_pos hph]
        rw [keyCount_cons, keyCount_cons]
        simp only [hph.1, hph.2, and_self, if_true]
        omega
      · simp only [addOrReinforce, if_neg hph]
        rw [keyCount_cons, keyCount_cons, if_neg hph]
        simpa using ih

end FieldLemmas

section Claim5

variable {α : Type} [LinearOrderedField α]

/-- **C5.** Applying a deposit value at a cell
(`AntColonyModel._add_or_reinforce_pheromone`):
if a pheromone of the same type already exists at the cell, its strength
becomes `min(3.0, existing + value*0.5)`, no new pheromone is created (the
field keeps its length), and the reinforced strength never exceeds 3.0;
if none exists, a new pheromone with exactly the deposit value as its
strength is created if and only if `value ≥ 0.2`; and the
at-most-one-pheromone-per-(position, type) invariant is preserved. -/
theorem C5_apply_deposit_at_cell (pos : ℤ × ℤ) (t : PherType) (v : α) :
    (∀ f : Field α, (∀ ph ∈ f, ¬(ph.pos = pos ∧ ph.ptype = t)) →
        addOrReinforce pos v t f =
          if 2 / 10 ≤ v then f ++ [⟨pos, t, v⟩] else f) ∧
    (∀ (f₁ f₂ : Field α) (ph : Pher α),
        (∀ q ∈ f₁, ¬(q.pos = pos ∧ q.ptype = t)) →
        ph.pos = pos ∧ ph.ptype = t →
        addOrReinforce pos v t (f₁ ++ ph :: f₂) =
            f₁ ++ { ph with strength := min 3 (ph.strength + v * (1 / 2)) } :: f₂ ∧
          (addOrReinforce pos v t (f₁ ++ ph :: f₂)).length = (f₁ ++ ph :: f₂).length ∧
          min 3 (ph.strength + v * (1 / 2)) ≤ 3) ∧
    (∀ (f : Field α) (pos' : ℤ × ℤ) (t' : PherType),
        keyCount pos' t' f ≤ 1 →
        keyCount pos' t' (addOrReinforce pos v t f) ≤ 1) := by
  refine ⟨fun f h => addOrReinforce_of_not_hasKey h, ?_, ?_⟩
  · intro f₁ f₂ ph h₁ hph
    have heq := addOrReinforce_of_first_match (v := v) f₁ f₂ ph h₁ hph
    exact ⟨heq, by rw [heq]; simp, min_le_left _ _⟩
  · intro f pos' t' h
    by_cases hkey : pos' = pos ∧ t' = t
    · rcases hkey with ⟨rfl, rfl⟩
      calc keyCount pos' t' (addOrReinforce pos' v t' f)
          ≤ max 1 (keyCount pos' t' f) := keyCount_addOrReinforce_self pos' t' v f
        _ ≤ 1 := by omega
    · rw [keyCount_addOrReinforce_ne pos pos' t t' v f hkey]; exact h

/-- Witness for C5: a fresh deposit of strength 1 at an empty key creates a
pheromone of strength exactly 1; reinforcing an existing pheromone of
strength 2.9 with a deposit of 1 caps the strength at 3.0. -/
theorem C5_apply_deposit_at_cell_witness :
    addOrReinforce ((5 : ℤ), (5 : ℤ)) (1 : ℚ) PherType.toNest
        [⟨(3, 3), PherType.toFood, 1⟩] =
      [⟨(3, 3), PherType.toFood, 1⟩, ⟨(5, 5), PherType.toNest, 1⟩] ∧
    addOrReinforce ((5 : ℤ), (5 : ℤ)) (1 : ℚ) PherType.toNest
        [⟨(5, 5), PherType.toNest, 29 / 10⟩] =
      [⟨(5, 5), PherType.toNest, 3⟩] := by
  constructor
  · have h := (C5_apply_deposit_at_cell ((5 : ℤ), (5 : ℤ)) PherType.toNest (1 : ℚ)).1
      [⟨(3, 3), PherType.toFood, 1⟩] (by decide)
    rw [h, if_pos (by norm_num)]
    rfl
  · have h := ((C5_apply_deposit_at_cell ((5 : ℤ), (5 : ℤ)) PherType.toNest (1 : ℚ)).2.1
      [] [] ⟨(5, 5), PherType.toNest, 29 / 10⟩ (by simp) ⟨rfl, rfl⟩).1
    simp only [List.nil_append] at h
    have hmin : min (3 : ℚ) (29 / 10 + 1 * (1 / 2)) = 3 := by
      rw [min_eq_left (by norm_num)]
    rw [hmin] at h
    exact h

end Claim5

section Claim6

/-- **C6.** For every live pheromone, its strength after the decay pass
equals its strength before the pass multiplied by its type's current
evaporation factor, and the pheromone is present in the field after the pass
if and only if that post-decay strength is not below 0.05
(`PheromoneAgent.step`, aggregated over all pheromone agents of the
schedule). -/
theorem C6_decay_strength_and_removal {α : Type} [LinearOrderedField α]
    (fN fF : α) (f : Field α) (ph : Pher α) :
    ph ∈ decayAll fN fF f ↔
      ∃ q ∈ f, ph.pos = q.pos ∧ ph.ptype = q.ptype ∧
        ph.strength = q.strength * typeFactor fN fF q.ptype ∧
        ¬ ph.strength < 5 / 100 :=
  mem_decayAll_iff fN fF f ph

end Claim6

section Claim7

/-- `AntColonyModel._lifespan_to_evaporation`: the source first computes
`total_steps = lifespan_seconds * self.steps_per_second / self.simulation_speed`
with `steps_per_second = 10`, returns `0.0` when `total_steps <= 0`, and
otherwise returns `max(0.01, min(0.999, 0.05 ** (1.0 / total_steps)))`. -/
noncomputable def lifespanToEvaporation (speed lifespan : ℚ) : ℝ :=
  if lifespan * 10 / speed ≤ 0 then 0
  else
    max 0.01 (min 0.999
      ((0.05 : ℝ) ^ ((1 : ℝ) / ((lifespan * 10 / speed : ℚ) : ℝ))))

theorem clamp_rpow_mono (T₁ T₂ : ℚ) (h₁ : 0 < T₁) (h₁₂ : T₁ ≤ T₂) :
    max 0.01 (min 0.999 ((0.05 : ℝ) ^ ((1 : ℝ) / (T₁ : ℝ)))) ≤
      max 0.01 (min 0.999 ((0.05 : ℝ) ^ ((1 : ℝ) / (T₂ : ℝ)))) := by
  have h₁R : (0 : ℝ) < (T₁ : ℝ) := by exact_mod_cast h₁
  have h₁₂R : (T₁ : ℝ) ≤ (T₂ : ℝ) := by exact_mod_cast h₁₂
  have hinv : (1 : ℝ) / (T₂ : ℝ) ≤ (1 : ℝ) / (T₁ : ℝ) :=
    one_div_le_one_div_of_le h₁R h₁₂R
  have hbase : (0.05 : ℝ) ^ ((1 : ℝ) / (T₁ : ℝ)) ≤
      (0.05 : ℝ) ^ ((1 : ℝ) / (T₂ : ℝ)) :=
    Real.rpow_le_rpow_of_exponent_ge (by norm_num) (by norm_num) hinv
  exact max_le_max le_rfl (min_le_min le_rfl hbase)

/-- **C7.** The evaporation factor equals `0.05^(1/totalTicks)` with
`totalTicks = lifespanSeconds * 10 / speedMultiplier`, clamped into
`[0.01, 0.999]`; it is exactly 0 when `totalTicks ≤ 0`; and it is
monotonically non-decreasing in the lifespan and non-increasing in the speed
multiplier (`AntColonyModel._lifespan_to_evaporation`). -/
theorem C7_evaporation_factor (speed lifespan : ℚ) (hs : 0 < speed) :
    (lifespan * 10 / speed ≤ 0 → lifespanToEvaporation speed lifespan = 0) ∧
    (0 < lifespan * 10 / speed →
        lifespanToEvaporation speed lifespan =
          max 0.01 (min 0.999
            ((0.05 : ℝ) ^ ((1 : ℝ) / ((lifespan * 10 / speed : ℚ) : ℝ)))) ∧
        0.01 ≤ lifespanToEvaporation speed lifespan ∧
        lifespanToEvaporation speed lifespan ≤ 0.999) ∧
    (∀ l₂ : ℚ, lifespan ≤ l₂ →
        lifespanToEvaporation speed lifespan ≤ lifespanToEvaporation speed l₂) ∧
    (∀ s₂ : ℚ, speed ≤ s₂ →
        lifespanToEvaporation s₂ lifespan ≤ lifespanToEvaporation speed lifespan) := by
  have hval : ∀ (s l : ℚ), 0 < l * 10 / s →
      lifespanToEvaporation s l =
        max 0.01 (min 0.999 ((0.05 : ℝ) ^ ((1 : ℝ) / ((l * 10 / s : ℚ) : ℝ)))) := by
    intro s l hT
    rw [lifespanToEvaporation, if_neg (not_le.mpr hT)]
  have hnonneg : ∀ s l : ℚ, (0 : ℝ) ≤ lifespanToEvaporation s l := by
    intro s l
    rw [lifespanToEvaporation]
    split_ifs with h
    · exact le_rfl
    · exact le_trans (by norm_num) (le_max_left _ _)
  refine ⟨?_, ?_, ?_, ?_⟩
  · intro hT
    rw [lifespanToEvaporation, if_pos hT]
  · intro hT
    refine ⟨hval speed lifespan hT, ?_, ?_⟩
    · rw [hval speed lifespan hT]
      exact le_max_left _ _
    · rw [hval speed lifespan hT]
      exact max_le (by norm_num) (min_le_left _ _)
  · intro l₂ hl
    by_cases hT₁ : lifespan * 10 / speed ≤ 0
    · rw [lifespanToEvaporation, if_pos hT₁]
      exact hnonneg speed l₂
    · push_neg at hT₁
      have hT₂le : lifespan * 10 / speed ≤ l₂ * 10 / speed :=
        (div_le_div_iff_of_pos_right hs).mpr
          (mul_le_mul_of_nonneg_right hl (by norm_num))
      have hT₂ : 0 < l₂ * 10 / speed := lt_of_lt_of_le hT₁ hT₂le
      rw [hval speed lifespan hT₁, hval speed l₂ hT₂]
      exact clamp_rpow_mono _ _ hT₁ hT₂le
  · intro s₂ hs₂
    have hs₂pos : 0 < s₂ := lt_of_lt_of_le hs hs₂
    rcases le_or_lt (lifespan * 10) 0 with hl0 | hl0
    · have h₂ : lifespan * 10 / s₂ ≤ 0 := div_nonpos_iff.mpr (Or.inr ⟨hl0, hs₂pos.le⟩)
      rw [lifespanToEvaporation, if_pos h₂]
      exact hnonneg speed lifespan
    · have hT₂ : 0 < lifespan * 10 / s₂ := div_pos hl0 hs₂pos
      have hT₁ : 0 < lifespan * 10 / speed := div_pos hl0 hs
      have hle : lifespan * 10 / s₂ ≤ lifespan * 10 / speed :=
        div_le_div_of_nonneg_left hl0.le hs hs₂
      rw [hval s₂ lifespan hT₂, hval speed lifespan hT₁]
      exact clamp_rpow_mono _ _ hT₂ hle

/-- Witness for C7: at speed 1 and lifespan 10 seconds, the factor lies in
`[0.01, 0.999]`. -/
theorem C7_evaporation_factor_witness :
    0.01 ≤ lifespanToEvaporation 1 10 ∧ lifespanToEvaporation 1 10 ≤ 0.999 :=
  ((C7_evaporation_factor 1 10 (by norm_num)).2.1 (by norm_num)).2

end Claim7

/-! ### Ant state and food interaction (`AntAgent` in `agents.py`) -/

/-- The mutable per-ant state relevant to food handling and the post-delivery
escape behaviour (fields of `AntAgent`). -/
structure AntState where
  pos : ℤ × ℤ
  carryingFood : Bool
  lastFoodPos : Option (ℤ × ℤ)
  returningToFood : Bool
  justDroppedFood : Bool
  explorationCooldown : ℕ
deriving DecidableEq

/-- `AntAgent.drop_food_at_nest`: if carrying and the raw coordinate
differences to the nest are both at most 1 in absolute value, clear
`carrying_food`, increment the model's `food_delivered` counter, and set the
post-delivery flags (`just_dropped_food`, `returning_to_food`,
`exploration_cooldown = 5`).  Returns the updated ant, the updated counter,
and whether food was dropped. -/
def dropFoodAtNest (nest : ℤ × ℤ) (a : AntState) (delivered : ℕ) :
    AntState × ℕ × Bool :=
  if a.carryingFood then
    if |a.pos.1 - nest.1| ≤ 1 ∧ |a.pos.2 - nest.2| ≤ 1 then
      ({ a with carryingFood := false, justDroppedFood := true,
                returningToFood := true, explorationCooldown := 5 },
        delivered + 1, true)
    else (a, delivered, false)
  else (a, delivered, false)

/-- Chebyshev distance between two cells on the `W × H` torus. -/
def torusCheb (W H : ℤ) (a b : ℤ × ℤ) : ℤ :=
  max (min |a.1 - b.1| (W - |a.1 - b.1|)) (min |a.2 - b.2| (H - |a.2 - b.2|))

section Claim8

/-- On a torus of size at least 4×4 with the nest at the grid centre, the
raw-coordinate Chebyshev test of the source coincides with torus Chebyshev
distance at most 1, for in-range positions. -/
theorem torusCheb_le_one_iff (W H x y : ℤ) (hW : 4 ≤ W) (hH : 4 ≤ H)
    (hx0 : 0 ≤ x) (hxW : x < W) (hy0 : 0 ≤ y) (hyH : y < H) :
    (|x - W / 2| ≤ 1 ∧ |y - H / 2| ≤ 1) ↔
      torusCheb W H (x, y) (W / 2, H / 2) ≤ 1 := by
  unfold torusCheb
  dsimp only
  rcases abs_cases (x - W / 2) with ⟨h1, h1'⟩ | ⟨h1, h1'⟩ <;>
    rcases abs_cases (y - H / 2) with ⟨h2, h2'⟩ | ⟨h2, h2'⟩ <;>
    omega

/-- **C8.** An ant carrying food drops it iff its position is within
Chebyshev distance 1 of the nest; in that case `carryingFood` becomes false,
the delivered-food counter increases by exactly 1, the post-delivery
cooldown is set to 5 and `returningToFood` is set to true; a non-carrying
ant is left completely unchanged; and the counter never decreases.  For
in-range positions on a torus of size at least 4×4 with the nest at the grid
centre, the raw-coordinate Chebyshev test of the source coincides with
Chebyshev distance at most 1 on the torus (`AntAgent.drop_food_at_nest`). -/
theorem C8_drop_food_at_nest (nest : ℤ × ℤ) (a : AntState) (delivered : ℕ) :
    ((dropFoodAtNest nest a delivered).2.2 = true ↔
        a.carryingFood = true ∧ |a.pos.1 - nest.1| ≤ 1 ∧ |a.pos.2 - nest.2| ≤ 1) ∧
    ((dropFoodAtNest nest a delivered).2.2 = true →
        (dropFoodAtNest nest a delivered).1 =
            { a with carryingFood := false, justDroppedFood := true,
                     returningToFood := true, explorationCooldown := 5 } ∧
          (dropFoodAtNest nest a delivered).2.1 = delivered + 1) ∧
    ((dropFoodAtNest nest a delivered).2.2 = false →
        (dropFoodAtNest nest a delivered).1 = a ∧
          (dropFoodAtNest nest a delivered).2.1 = delivered) ∧
    (a.carryingFood = false → dropFoodAtNest nest a delivered = (a, delivered, false)) ∧
    delivered ≤ (dropFoodAtNest nest a delivered).2.1 ∧
    (∀ W H : ℤ, 4 ≤ W → 4 ≤ H → nest = (W / 2, H / 2) →
        0 ≤ a.pos.1 → a.pos.1 < W → 0 ≤ a.pos.2 → a.pos.2 < H →
        ((|a.pos.1 - nest.1| ≤ 1 ∧ |a.pos.2 - nest.2| ≤ 1) ↔
          torusCheb W H a.pos nest ≤ 1)) := by
  refine ⟨?_, ?_, ?_, ?_, ?_, ?_⟩
  · unfold dropFoodAtNest
    split_ifs with hc hd
    · simp [hc, hd]
    · simp [hc, hd]
    · simp [hc]
  · unfold dropFoodAtNest
    split_ifs with hc hd <;> intro h
    · exact ⟨rfl, rfl⟩
    · cases h
    · cases h
  · unfold dropFoodAtNest
    split_ifs with hc hd <;> intro h
    · cases h
    · exact ⟨rfl, rfl⟩
    · exact ⟨rfl, rfl⟩
  · intro hcf
    unfold dropFoodAtNest
    rw [hcf]
    simp
  · unfold dropFoodAtNest
    split_ifs <;> dsimp only <;> omega
  · intro W H hW hH hnest h1 h2 h3 h4
    subst hnest
    exact torusCheb_le_one_iff W H a.pos.1 a.pos.2 hW hH h1 h2 h3 h4

/-- Witness for C8: an ant carrying food right next to the nest (nest at
(50,50), ant at (51,50)) drops its food and the delivered counter goes from
7 to 8. -/
theorem C8_drop_food_at_nest_witness :
    (dropFoodAtNest (50, 50) ⟨(51, 50), true, some (60, 60), false, false, 0⟩ 7).2.2
        = true ∧
      (dropFoodAtNest (50, 50) ⟨(51, 50), true, some (60, 60), false, false, 0⟩ 7).2.1
        = 8 := by
  have h := C8_drop_food_at_nest (50, 50)
    ⟨(51, 50), true, some (60, 60), false, false, 0⟩ 7
  have hdrop := h.1.mpr ⟨rfl, by decide, by decide⟩
  refine ⟨hdrop, ?_⟩
  rw [(h.2.1 hdrop).2]

end Claim8

/-! ### Pheromone deposit with nest-distance scaling
(`AntColonyModel.create_pheromone`) -/

section DepositOps

variable {α : Type} [LinearOrderedField α]

/-- The unconditional part of `create_pheromone`: apply the (already scaled)
strength at `pos` at full value, then at every Moore neighbour (torus
wrapped) at 30% of that value, each through
`_add_or_reinforce_pheromone`. -/
def depositAround (W H : ℤ) (p : ℤ × ℤ) (s : α) (t : PherType) (f : Field α) :
    Field α :=
  (neighborhood W H p).foldl (fun acc n => addOrReinforce n (s * (3 / 10)) t acc)
    (addOrReinforce p s t f)

end DepositOps

/-- `AntColonyModel.create_pheromone`: computes the Euclidean distance from
`pos` to the nest; if it is below 10 the strength is scaled by `dist/10`
(and if it is below 3 the call returns without touching the field); the
resulting strength is applied at `pos` and, at 30%, at the Moore
neighbours. -/
noncomputable def createPheromone (W H : ℤ) (nest pos : ℤ × ℤ) (strength : ℝ)
    (t : PherType) (f : Field ℝ) : Field ℝ :=
  if Real.sqrt ((distSqZ pos nest : ℤ) : ℝ) < 10 then
    if Real.sqrt ((distSqZ pos nest : ℤ) : ℝ) < 3 then f
    else
      depositAround W H pos
        (strength * (Real.sqrt ((distSqZ pos nest : ℤ) : ℝ) / 10)) t f
  else depositAround W H pos strength t f

/-- When the depositing cell is at squared distance `< 9` from the nest
(Euclidean distance `< 3`), `create_pheromone` returns without touching the
field. -/
theorem createPheromone_near_nest (W H : ℤ) (nest pos : ℤ × ℤ) (s : ℝ)
    (t : PherType) (f : Field ℝ) (h : distSqZ pos nest < 9) :
    createPheromone W H nest pos s t f = f := by
  have hR : ((distSqZ pos nest : ℤ) : ℝ) < 9 := by exact_mod_cast h
  have h3 : Real.sqrt ((distSqZ pos nest : ℤ) : ℝ) < 3 := by
    rw [Real.sqrt_lt' (by norm_num : (0:ℝ) < 3)]
    norm_num
    exact hR
  have h10 : Real.sqrt ((distSqZ pos nest : ℤ) : ℝ) < 10 := by
    rw [Real.sqrt_lt' (by norm_num : (0:ℝ) < 10)]
    norm_num
    linarith
  unfold createPheromone
  rw [if_pos h10, if_pos h3]

/-- When the depositing cell is at distance in `[3, 10)` from the nest,
`create_pheromone` scales the strength by `dist/10` and spreads it. -/
theorem createPheromone_mid (W H : ℤ) (nest pos : ℤ × ℤ) (s : ℝ)
    (t : PherType) (f : Field ℝ) (h9 : 9 ≤ distSqZ pos nest)
    (h100 : distSqZ pos nest < 100) :
    createPheromone W H nest pos s t f =
      depositAround W H pos
        (s * (Real.sqrt ((distSqZ pos nest : ℤ) : ℝ) / 10)) t f := by
  have h10 : Real.sqrt ((distSqZ pos nest : ℤ) : ℝ) < 10 := by
    rw [Real.sqrt_lt' (by norm_num : (0:ℝ) < 10)]
    norm_num
    exact_mod_cast h100
  have h3 : ¬ Real.sqrt ((distSqZ pos nest : ℤ) : ℝ) < 3 := by
    rw [Real.sqrt_lt' (by norm_num : (0:ℝ) < 3)]
    push_neg
    norm_num
    exact_mod_cast h9
  unfold createPheromone
  rw [if_pos h10, if_neg h3]

/-- When the depositing cell is at distance `≥ 10` from the nest,
`create_pheromone` applies the unscaled strength. -/
theorem createPheromone_far (W H : ℤ) (nest pos : ℤ × ℤ) (s : ℝ)
    (t : PherType) (f : Field ℝ) (h : 100 ≤ distSqZ pos nest) :
    createPheromone W H nest pos s t f = depositAround W H pos s t f := by
  have h10 : ¬ Real.sqrt ((distSqZ pos nest : ℤ) : ℝ) < 10 := by
    rw [Real.sqrt_lt' (by norm_num : (0:ℝ) < 10)]
    push_neg
    norm_num
    exact_mod_cast h
  unfold createPheromone
  rw [if_neg h10]

section Claim4

/-- **C4.** `create_pheromone` is a complete no-op when the depositing cell
is at Euclidean distance < 3 from the nest; when the distance is in
`[3, 10)` the effective strength is scaled by `dist/10` and then applied at
the cell at full value with 30% spread to the Moore neighbours; at distance
`≥ 10` the unscaled strength is applied the same way
(`AntColonyModel.create_pheromone`; distance comparisons are phrased on the
integer squared distance, which is exact). -/
theorem C4_deposit_distance_scaling (W H : ℤ) (nest pos : ℤ × ℤ) (s : ℝ)
    (t : PherType) (f : Field ℝ) :
    (distSqZ pos nest < 9 → createPheromone W H nest pos s t f = f) ∧
    (9 ≤ distSqZ pos nest → distSqZ pos nest < 100 →
        createPheromone W H nest pos s t f =
          depositAround W H pos
            (s * (Real.sqrt ((distSqZ pos nest : ℤ) : ℝ) / 10)) t f) ∧
    (100 ≤ distSqZ pos nest →
        createPheromone W H nest pos s t f = depositAround W H pos s t f) :=
  ⟨createPheromone_near_nest W H nest pos s t f,
   createPheromone_mid W H nest pos s t f,
   createPheromone_far W H nest pos s t f⟩

/-- Witness for C4: a deposit at (53,54) with the nest at (50,50) sits at
distance exactly 5, so the strength 1.5 is scaled by 5/10 and spread. -/
theorem C4_deposit_distance_scaling_witness :
    createPheromone 100 100 (50, 50) (53, 54) (3 / 2) PherType.toNest [] =
      depositAround 100 100 (53, 54) (3 / 2 * ((5 : ℝ) / 10)) PherType.toNest [] := by
  have hd : distSqZ ((53 : ℤ), (54 : ℤ)) (50, 50) = 25 := by decide
  have h := (C4_deposit_distance_scaling 100 100 (50, 50) (53, 54) (3 / 2)
    PherType.toNest []).2.1 (by rw [hd]; norm_num) (by rw [hd]; norm_num)
  rw [hd] at h
  have hs : Real.sqrt (((25 : ℤ) : ℝ)) = 5 := by
    rw [show ((25 : ℤ) : ℝ) = (5 : ℝ) ^ 2 by norm_num,
      Real.sqrt_sq (by norm_num : (0:ℝ) ≤ 5)]
  rw [hs] at h
  exact h

end Claim4

/-! ### Claim 10: live pheromones never sit within distance 3 of the nest -/

/-- A stored position lies in the wrapped grid range `[0,W) × [0,H)`. -/
def inRange (W H : ℤ) (p : ℤ × ℤ) : Prop :=
  0 ≤ p.1 ∧ p.1 < W ∧ 0 ≤ p.2 ∧ p.2 < H

/-- Fields reachable in a run: the field starts empty, ants deposit only
through `create_pheromone` with the strengths occurring in `AntAgent.move`
(1.0 for to-food trails, 1.5 for to-nest trails) at in-range positions, and
the pheromone agents decay through their `step`.  The nest sits at the grid
centre `(W/2, H/2)` as in `AntColonyModel.__init__`. -/
inductive FieldReach (W H : ℤ) : Field ℝ → Prop
  | init : FieldReach W H []
  | deposit (p : ℤ × ℤ) (s : ℝ) (t : PherType) (f : Field ℝ) :
      FieldReach W H f → (s = 1 ∨ s = 3 / 2) → inRange W H p →
      FieldReach W H (createPheromone W H (W / 2, H / 2) p s t f)
  | decay (fN fF : ℝ) (f : Field ℝ) :
      FieldReach W H f → FieldReach W H (decayAll fN fF f)

/-- Torus wrap of one coordinate of a Moore step: either nothing wraps, or
the wrapped coordinate lies on the far edge of the axis. -/
theorem wrap_axis_cases (Wd x dx : ℤ) (hW : 2 ≤ Wd) (h0 : 0 ≤ x) (h1 : x < Wd)
    (hdx : -1 ≤ dx ∧ dx ≤ 1) :
    (x + dx) % Wd = x + dx ∨
      ((x + dx) % Wd = Wd - 1 ∧ x + dx = -1) ∨
      ((x + dx) % Wd = 0 ∧ x + dx = Wd) := by
  rcases lt_trichotomy (x + dx) 0 with hneg | hzero | hpos
  · have hx : x + dx = -1 := by omega
    right; left
    refine ⟨?_, hx⟩
    rw [hx, show (-1 : ℤ) = (Wd - 1) + Wd * (-1) by ring,
      Int.add_mul_emod_self_left, Int.emod_eq_of_lt (by omega) (by omega)]
  · left
    rw [hzero, Int.zero_emod]
  · rcases lt_or_le (x + dx) Wd with hlt | hge
    · left
      exact Int.emod_eq_of_lt (by omega) hlt
    · have hx : x + dx = Wd := by omega
      right; right
      rw [hx, Int.emod_self]
      exact ⟨rfl, rfl⟩

/-- A square of an integer at least 3 in absolute value is at least 9. -/
theorem sq_ge_nine_of_abs_ge_three (z : ℤ) (h : 3 ≤ z ∨ z ≤ -3) : 9 ≤ z ^ 2 := by
  rcases h with h | h <;> nlinarith

/-- One unwrapped Moore step from a cell at squared distance ≥ 20 from the
nest cannot land at squared distance < 9. -/
theorem unwrapped_step_far (u v du dv : ℤ) (hdu : -1 ≤ du ∧ du ≤ 1)
    (hdv : -1 ≤ dv ∧ dv ≤ 1) (h : 20 ≤ u ^ 2 + v ^ 2) :
    9 ≤ (u + du) ^ 2 + (v + dv) ^ 2 := by
  by_contra hc
  push_neg at hc
  have h1 : (u + du) ^ 2 ≤ 8 := by nlinarith [sq_nonneg (v + dv)]
  have h2 : (v + dv) ^ 2 ≤ 8 := by nlinarith [sq_nonneg (u + du)]
  have h3l : -2 ≤ u + du := by
    by_contra h'
    push_neg at h'
    nlinarith [sq_nonneg (u + du + 3)]
  have h3r : u + du ≤ 2 := by
    by_contra h'
    push_neg at h'
    nlinarith [sq_nonneg (u + du - 3)]
  have h4l : -2 ≤ v + dv := by
    by_contra h'
    push_neg at h'
    nlinarith [sq_nonneg (v + dv + 3)]
  have h4r : v + dv ≤ 2 := by
    by_contra h'
    push_neg at h'
    nlinarith [sq_nonneg (v + dv - 3)]
  have h5 : u ^ 2 ≤ 9 := by
    nlinarith [mul_nonneg (by omega : (0:ℤ) ≤ 3 - u) (by omega : (0:ℤ) ≤ 3 + u)]
  have h6 : v ^ 2 ≤ 9 := by
    nlinarith [mul_nonneg (by omega : (0:ℤ) ≤ 3 - v) (by omega : (0:ℤ) ≤ 3 + v)]
  linarith

/-- On a grid of size at least 7×7, every torus Moore neighbour of a cell at
squared distance ≥ 20 from the centre nest is itself at squared distance ≥ 9
from the nest. -/
theorem neighbor_far (W H : ℤ) (hW : 7 ≤ W) (hH : 7 ≤ H) (p : ℤ × ℤ)
    (hp : inRange W H p) (hfar : 20 ≤ distSqZ p (W / 2, H / 2))
    (n : ℤ × ℤ) (hn : n ∈ neighborhood W H p) :
    9 ≤ distSqZ n (W / 2, H / 2) := by
  obtain ⟨d, hd, rfl⟩ : ∃ d ∈ mooreOffsets, wrapPos W H (p.1 + d.1, p.2 + d.2) = n := by
    simpa [neighborhood] using hn
  have hdu : -1 ≤ d.1 ∧ d.1 ≤ 1 := by
    fin_cases hd <;> constructor <;> norm_num
  have hdv : -1 ≤ d.2 ∧ d.2 ≤ 1 := by
    fin_cases hd <;> constructor <;> norm_num
  obtain ⟨hp1, hp2, hp3, hp4⟩ := hp
  have hcx := wrap_axis_cases W p.1 d.1 (by omega) hp1 hp2 hdu
  have hcy := wrap_axis_cases H p.2 d.2 (by omega) hp3 hp4 hdv
  unfold wrapPos distSqZ at *
  dsimp only at *
  rcases hcx with hx | hx | hx
  · rcases hcy with hy | hy | hy
    · rw [hx, hy]
      exact unwrapped_step_far (p.1 - W / 2) (p.2 - H / 2) d.1 d.2 hdu hdv
        (by linarith [hfar]) |>.trans_eq (by ring) |>.trans_eq' (by ring)
    · rw [hx, hy.1]
      have h9 : 9 ≤ (H - 1 - H / 2) ^ 2 :=
        sq_ge_nine_of_abs_ge_three _ (Or.inl (by omega))
      nlinarith [sq_nonneg (p.1 + d.1 - W / 2)]
    · rw [hx, hy.1]
      have h9 : 9 ≤ (0 - H / 2) ^ 2 :=
        sq_ge_nine_of_abs_ge_three _ (Or.inr (by omega))
      nlinarith [sq_nonneg (p.1 + d.1 - W / 2)]
  · rcases hcy with hy | hy | hy <;> rw [hx.1]
    · rw [hy]
      have h9 : 9 ≤ (W - 1 - W / 2) ^ 2 :=
        sq_ge_nine_of_abs_ge_three _ (Or.inl (by omega))
      nlinarith [sq_nonneg (p.2 + d.2 - H / 2)]
    · rw [hy.1]
      have h9 : 9 ≤ (W - 1 - W / 2) ^ 2 :=
        sq_ge_nine_of_abs_ge_three _ (Or.inl (by omega))
      nlinarith [sq_nonneg ((H:ℤ) - 1 - H / 2)]
    · rw [hy.1]
      have h9 : 9 ≤ (W - 1 - W / 2) ^ 2 :=
        sq_ge_nine_of_abs_ge_three _ (Or.inl (by omega))
      nlinarith [sq_nonneg ((0:ℤ) - H / 2)]
  · rcases hcy with hy | hy | hy <;> rw [hx.1]
    · rw [hy]
      have h9 : 9 ≤ ((0:ℤ) - W / 2) ^ 2 :=
        sq_ge_nine_of_abs_ge_three _ (Or.inr (by omega))
      nlinarith [sq_nonneg (p.2 + d.2 - H / 2)]
    · rw [hy.1]
      have h9 : 9 ≤ ((0:ℤ) - W / 2) ^ 2 :=
        sq_ge_nine_of_abs_ge_three _ (Or.inr (by omega))
      nlinarith [sq_nonneg ((H:ℤ) - 1 - H / 2)]
    · rw [hy.1]
      have h9 : 9 ≤ ((0:ℤ) - W / 2) ^ 2 :=
        sq_ge_nine_of_abs_ge_three _ (Or.inr (by omega))
      nlinarith [sq_nonneg ((0:ℤ) - H / 2)]

/-- If a 30%-spread deposit value passes the 0.2 creation threshold for the
strengths ants use (1.0 and 1.5) after `dist/10` scaling, the depositing
cell is at squared distance at least 20 from the nest. -/
theorem creation_threshold_far (s : ℝ) (hs : s = 1 ∨ s = 3 / 2) (d2 : ℤ)
    (h9 : 9 ≤ d2)
    (hv : (2 : ℝ) / 10 ≤ s * (Real.sqrt ((d2 : ℤ) : ℝ) / 10) * (3 / 10)) :
    20 ≤ d2 := by
  have hd2 : (0 : ℝ) ≤ ((d2 : ℤ) : ℝ) := by
    have : (0 : ℤ) ≤ d2 := by omega
    exact_mod_cast this
  have hsq : Real.sqrt ((d2 : ℤ) : ℝ) * Real.sqrt ((d2 : ℤ) : ℝ) = ((d2 : ℤ) : ℝ) :=
    Real.mul_self_sqrt hd2
  have hs32 : s ≤ 3 / 2 := by rcases hs with rfl | rfl <;> norm_num
  have hsn : (0 : ℝ) ≤ Real.sqrt ((d2 : ℤ) : ℝ) := Real.sqrt_nonneg _
  have h40 : (40 : ℝ) / 9 ≤ Real.sqrt ((d2 : ℤ) : ℝ) := by
    by_contra hc
    push_neg at hc
    nlinarith [mul_le_mul_of_nonneg_right hs32 hsn]
  have h1681 : (1600 : ℝ) / 81 ≤ ((d2 : ℤ) : ℝ) := by nlinarith
  have h19 : (19 : ℤ) < d2 := by
    have : (19 : ℝ) < ((d2 : ℤ) : ℝ) := by linarith
    exact_mod_cast this
  omega

/-- Folding 30%-strength `addOrReinforce` deposits over a set of far-enough
neighbours preserves the far-from-nest key invariant. -/
theorem foldl_addOrReinforce_far (nest : ℤ × ℤ) (v : ℝ) (t : PherType)
    (ns : List (ℤ × ℤ)) (hns : ∀ n ∈ ns, 2 / 10 ≤ v * (3 / 10) → 9 ≤ distSqZ n nest)
    (acc : Field ℝ) (hacc : ∀ ph ∈ acc, 9 ≤ distSqZ ph.pos nest) :
    ∀ ph ∈ ns.foldl (fun acc n => addOrReinforce n (v * (3 / 10)) t acc) acc,
      9 ≤ distSqZ ph.pos nest := by
  induction ns generalizing acc with
  | nil => exact hacc
  | cons n rest ih =>
      intro ph hph
      refine ih (fun m hm => hns m (by simp [hm])) _ ?_ ph hph
      intro q hq
      rcases mem_addOrReinforce hq with ⟨r, hr, hqr⟩ | ⟨hqn, hth⟩
      · rw [hqr]; exact hacc r hr
      · rw [hqn]; exact hns n (by simp) hth

/-- `depositAround` preserves the far-from-nest key invariant, provided the
centre cell is itself far enough and any neighbour that can pass the
creation threshold is far enough. -/
theorem depositAround_far (W H : ℤ) (nest : ℤ × ℤ) (p : ℤ × ℤ) (v : ℝ)
    (t : PherType) (f : Field ℝ)
    (hcenter : 2 / 10 ≤ v → 9 ≤ distSqZ p nest)
    (hneigh : ∀ n ∈ neighborhood W H p,
        2 / 10 ≤ v * (3 / 10) → 9 ≤ distSqZ n nest)
    (hf : ∀ ph ∈ f, 9 ≤ distSqZ ph.pos nest) :
    ∀ ph ∈ depositAround W H p v t f, 9 ≤ distSqZ ph.pos nest := by
  unfold depositAround
  refine foldl_addOrReinforce_far nest v t _ hneigh _ ?_
  intro q hq
  rcases mem_addOrReinforce hq with ⟨r, hr, hqr⟩ | ⟨hqn, hth⟩
  · rw [hqr]; exact hf r hr
  · rw [hqn]; exact hcenter hth

section Claim10

/-- **C10.** In every reachable pheromone field of a run (on a grid of size
at least 7×7, nest at the centre), every live pheromone lies at a cell whose
unwrapped squared Euclidean distance to the nest is at least 9 (distance at
least 3): deposits closer than 3 are rejected outright, the `dist/10`
scaling together with the 30% neighbour factor and the 0.2 creation
threshold blocks neighbour-spread creation of pheromones inside that radius
for the ant deposit strengths 1.0 and 1.5, reinforcement never moves a
pheromone, and decay only removes pheromones. -/
theorem C10_no_pheromone_near_nest (W H : ℤ) (hW : 7 ≤ W) (hH : 7 ≤ H)
    (f : Field ℝ) (hreach : FieldReach W H f) :
    ∀ ph ∈ f, 9 ≤ distSqZ ph.pos (W / 2, H / 2) := by
  induction hreach with
  | init => intro ph hph; cases hph
  | @deposit p s t f hre hs hp ih =>
      rcases lt_or_le (distSqZ p (W / 2, H / 2)) 9 with h9 | h9
      · rw [createPheromone_near_nest W H (W / 2, H / 2) p s t f h9]
        exact ih
      · rcases lt_or_le (distSqZ p (W / 2, H / 2)) 100 with h100 | h100
        · rw [createPheromone_mid W H (W / 2, H / 2) p s t f h9 h100]
          refine depositAround_far W H (W / 2, H / 2) p _ t f
            (fun _ => h9) ?_ ih
          intro n hn hth
          exact neighbor_far W H hW hH p hp
            (creation_threshold_far s hs _ h9 hth) n hn
        · rw [createPheromone_far W H (W / 2, H / 2) p s t f h100]
          refine depositAround_far W H (W / 2, H / 2) p s t f
            (fun _ => h9) ?_ ih
          intro n hn _
          exact neighbor_far W H hW hH p hp (by omega) n hn
  | @decay fN fF f hre ih =>
      intro ph hph
      rcases (mem_decayAll_iff fN fF f ph).mp hph with ⟨q, hq, hpos, _, _, _⟩
      rw [hpos]
      exact ih q hq

/-- Witness for C10: after one reachable deposit at (60,50) on the default
100×100 grid, no pheromone can sit at (51,50), one cell from the nest. -/
theorem C10_no_pheromone_near_nest_witness :
    (⟨(51, 50), PherType.toNest, 1⟩ : Pher ℝ) ∉
      createPheromone 100 100 ((100 : ℤ) / 2, (100 : ℤ) / 2) (60, 50) 1
        PherType.toNest [] := by
  intro hmem
  have hinv := C10_no_pheromone_near_nest 100 100 (by norm_num) (by norm_num)
    (createPheromone 100 100 ((100 : ℤ) / 2, (100 : ℤ) / 2) (60, 50) 1
      PherType.toNest [])
    (FieldReach.deposit (60, 50) 1 PherType.toNest [] FieldReach.init
      (Or.inl rfl)
      (by refine ⟨by norm_num, by norm_num, by norm_num, by norm_num⟩))
  have h := hinv ⟨(51, 50), PherType.toNest, 1⟩ hmem
  revert h
  decide

end Claim10

/-! ### Claim 9: food conservation -/

/-- The simulation state relevant to food accounting: the ants, the
positions of the live food units (one list entry per `FoodAgent`), the
delivered-food counter, and the model's `total_food` counter. -/
structure SimState where
  ants : List AntState
  food : List (ℤ × ℤ)
  delivered : ℕ
  totalFood : ℕ

/-- Number of ants currently carrying food. -/
def countCarrying (ants : List AntState) : ℕ :=
  (ants.filter fun a => a.carryingFood).length

/-- The cumulative effect of `AntColonyModel.place_food`'s inner loops: each
created `FoodAgent` is placed on the grid and `total_food` is incremented
once per unit (the randomly chosen cells are abstracted as a list). -/
def placeFood (cells : List (ℤ × ℤ)) (s : SimState) : SimState :=
  { s with food := s.food ++ cells, totalFood := s.totalFood + cells.length }

/-- `AntAgent.pick_up_food` for ant `i`: if the ant is not carrying and a
food unit sits at its cell, remove that one unit, set `carrying_food` and
remember `last_food_pos`. -/
def pickUpFood (i : ℕ) (s : SimState) : SimState :=
  match s.ants[i]? with
  | none => s
  | some a =>
      if a.carryingFood then s
      else if a.pos ∈ s.food then
        { s with
            ants := s.ants.set i
              { a with carryingFood := true, lastFoodPos := some a.pos },
            food := s.food.erase a.pos }
      else s

/-- `AntAgent.drop_food_at_nest` for ant `i`, threading the model's
delivered-food counter. -/
def dropFood (nest : ℤ × ℤ) (i : ℕ) (s : SimState) : SimState :=
  match s.ants[i]? with
  | none => s
  | some a =>
      { s with ants := s.ants.set i (dropFoodAtNest nest a s.delivered).1,
               delivered := (dropFoodAtNest nest a s.delivered).2.1 }

/-- An arbitrary update of one ant's state that does not touch
`carryingFood` — this covers `AntAgent.move` and all flag bookkeeping,
none of which modify `carrying_food`. -/
def mapAnt (i : ℕ) (g : AntState → AntState) (s : SimState) : SimState :=
  match s.ants[i]? with
  | none => s
  | some a => { s with ants := s.ants.set i (g a) }

/-- Simulation states reachable in a run: ants start not carrying
(`AntAgent.__init__` sets `carrying_food = False`) with no food placed;
food piles are placed; ants pick up, drop, and move. -/
inductive SimReach (nest : ℤ × ℤ) : SimState → Prop
  | init (ants : List AntState) (h : ∀ a ∈ ants, a.carryingFood = false) :
      SimReach nest ⟨ants, [], 0, 0⟩
  | place (cells : List (ℤ × ℤ)) (s : SimState) :
      SimReach nest s → SimReach nest (placeFood cells s)
  | pickup (i : ℕ) (s : SimState) :
      SimReach nest s → SimReach nest (pickUpFood i s)
  | drop (i : ℕ) (s : SimState) :
      SimReach nest s → SimReach nest (dropFood nest i s)
  | move (i : ℕ) (g : AntState → AntState)
      (hg : ∀ a, (g a).carryingFood = a.carryingFood) (s : SimState) :
      SimReach nest s → SimReach nest (mapAnt i g s)

theorem length_erase_pos_add_one (x : ℤ × ℤ) (l : List (ℤ × ℤ)) (h : x ∈ l) :
    (l.erase x).length + 1 = l.length := by
  induction l with
  | nil => cases h
  | cons y ys ih =>
      rw [List.erase_cons]
      by_cases hyx : y = x
      · rw [if_pos (beq_iff_eq.mpr hyx)]
        rfl
      · rw [if_neg (by simp [hyx])]
        have hx : x ∈ ys := by
          rcases List.mem_cons.mp h with hh | hmem
          · exact absurd hh.symm hyx
          · exact hmem
        have := ih hx
        simp only [List.length_cons]
        omega

theorem countCarrying_cons (a : AntState) (l : List AntState) :
    countCarrying (a :: l) =
      (if a.carryingFood then 1 else 0) + countCarrying l := by
  simp only [countCarrying, List.filter_cons]
  cases h : a.carryingFood <;> simp [h, Nat.add_comm]

/-- Replacing the `i`-th ant changes the carrying count exactly by the
difference of the carrying flags. -/
theorem countCarrying_set (l : List AntState) (i : ℕ) (a b : AntState)
    (h : l[i]? = some a) :
    countCarrying (l.set i b) + (if a.carryingFood then 1 else 0) =
      countCarrying l + (if b.carryingFood then 1 else 0) := by
  induction l generalizing i with
  | nil => simp at h
  | cons x xs ih =>
      cases i with
      | zero =>
          simp only [List.getElem?_cons_zero, Option.some_inj] at h
          subst h
          simp only [List.set_cons_zero, countCarrying_cons]
          omega
      | succ j =>
          simp only [List.getElem?_cons_succ] at h
          simp only [List.set_cons_succ, countCarrying_cons]
          have := ih j h
          omega

/-- Case analysis of `dropFoodAtNest`: either nothing happens, or the ant
was carrying, stops carrying, and the counter increments. -/
theorem dropFoodAtNest_cases (nest : ℤ × ℤ) (a : AntState) (d : ℕ) :
    dropFoodAtNest nest a d = (a, d, false) ∨
      (a.carryingFood = true ∧
        (dropFoodAtNest nest a d).1 =
          { a with carryingFood := false, justDroppedFood := true,
                   returningToFood := true, explorationCooldown := 5 } ∧
        (dropFoodAtNest nest a d).2.1 = d + 1) := by
  unfold dropFoodAtNest
  split_ifs with hc hd
  · right; exact ⟨hc, rfl, rfl⟩
  · left; rfl
  · left; rfl

/-- The conservation invariant: live food units plus delivered food plus
food carried by ants equals the total food ever placed. -/
def foodInvariant (s : SimState) : Prop :=
  s.food.length + countCarrying s.ants + s.delivered = s.totalFood

theorem foodInvariant_pickUpFood (i : ℕ) (s : SimState)
    (h : foodInvariant s) : foodInvariant (pickUpFood i s) := by
  unfold pickUpFood
  cases ha : s.ants[i]? with
  | none => exact h
  | some a =>
      by_cases hc : a.carryingFood
      · simp only [hc, if_true]
        exact h
      · simp only [hc, if_false, Bool.false_eq_true]
        by_cases hm : a.pos ∈ s.food
        · simp only [hm, if_true]
          unfold foodInvariant at h ⊢
          dsimp only
          have hlen : (s.food.erase a.pos).length + 1 = s.food.length :=
            length_erase_pos_add_one a.pos s.food hm
          have hset := countCarrying_set s.ants i a
            { a with carryingFood := true, lastFoodPos := some a.pos } ha
          simp only [Bool.not_eq_true] at hc
          rw [hc] at hset
          simp at hset
          omega
        · simp only [hm, if_false]
          exact h

theorem foodInvariant_dropFood (nest : ℤ × ℤ) (i : ℕ) (s : SimState)
    (h : foodInvariant s) : foodInvariant (dropFood nest i s) := by
  unfold dropFood
  cases ha : s.ants[i]? with
  | none => exact h
  | some a =>
      rcases dropFoodAtNest_cases nest a s.delivered with hno | ⟨hc, h1, h2⟩
      · unfold foodInvariant at h ⊢
        dsimp only
        rw [hno]
        dsimp only
        have hset := countCarrying_set s.ants i a a ha
        omega
      · unfold foodInvariant at h ⊢
        dsimp only
        rw [h1, h2]
        have hset := countCarrying_set s.ants i a
          { a with carryingFood := false, justDroppedFood := true,
                   returningToFood := true, explorationCooldown := 5 } ha
        rw [hc] at hset
        simp only [if_true, if_false, Bool.false_eq_true] at hset
        omega

theorem foodInvariant_mapAnt (i : ℕ) (g : AntState → AntState)
    (hg : ∀ a, (g a).carryingFood = a.carryingFood) (s : SimState)
    (h : foodInvariant s) : foodInvariant (mapAnt i g s) := by
  unfold mapAnt
  cases ha : s.ants[i]? with
  | none => exact h
  | some a =>
      unfold foodInvariant at h ⊢
      dsimp only
      have hset := countCarrying_set s.ants i a (g a) ha
      rw [hg a] at hset
      omega

theorem countCarrying_eq_zero (ants : List AntState)
    (h : ∀ a ∈ ants, a.carryingFood = false) : countCarrying ants = 0 := by
  induction ants with
  | nil => rfl
  | cons a l ih =>
      rw [countCarrying_cons, h a (by simp), ih fun b hb => h b (by simp [hb])]
      simp

section Claim9

/-- **C9.** At every reachable state of a run, the number of live food
units on the grid plus the delivered-food counter plus the number of ants
currently carrying food equals the total number of food units placed; and
a successful `pick_up_food` removes exactly one food unit, sets the ant's
`carrying_food`, and records `last_food_pos` as the pickup cell
(`AntAgent.pick_up_food`, `AntAgent.drop_food_at_nest`,
`AntColonyModel.place_food`). -/
theorem C9_food_conservation (nest : ℤ × ℤ) (s : SimState)
    (h : SimReach nest s) :
    (s.food.length + countCarrying s.ants + s.delivered = s.totalFood) ∧
    (∀ i a, s.ants[i]? = some a → a.carryingFood = false → a.pos ∈ s.food →
      (pickUpFood i s).food.length + 1 = s.food.length ∧
        (pickUpFood i s).ants[i]? =
          some { a with carryingFood := true, lastFoodPos := some a.pos }) := by
  constructor
  · induction h with
    | init ants hinit =>
        show 0 + countCarrying ants + 0 = 0
        rw [countCarrying_eq_zero ants hinit]
    | place cells s hre ih =>
        unfold placeFood
        dsimp only
        rw [List.length_append]
        omega
    | pickup i s hre ih => exact foodInvariant_pickUpFood i s ih
    | drop i s hre ih => exact foodInvariant_dropFood nest i s ih
    | move i g hg s hre ih => exact foodInvariant_mapAnt i g hg s ih
  · intro i a ha hc hm
    unfold pickUpFood
    rw [ha]
    simp only [hc, if_false, hm, if_true, Bool.false_eq_true]
    constructor
    · dsimp only
      exact length_erase_pos_add_one a.pos s.food hm
    · dsimp only
      exact List.getElem?_set_self (by
        have := List.getElem?_eq_some_iff.mp ha
        exact this.1)

/-- Witness for C9: one ant, one food unit placed at the ant's cell, one
pickup — afterwards the grid holds 0 food units, 1 is carried, 0 are
delivered, and 1 was placed in total. -/
theorem C9_food_conservation_witness :
    (pickUpFood 0 (placeFood [(5, 5)]
        ⟨[⟨(5, 5), false, none, false, false, 0⟩], [], 0, 0⟩)).food.length +
      countCarrying (pickUpFood 0 (placeFood [(5, 5)]
        ⟨[⟨(5, 5), false, none, false, false, 0⟩], [], 0, 0⟩)).ants +
      (pickUpFood 0 (placeFood [(5, 5)]
        ⟨[⟨(5, 5), false, none, false, false, 0⟩], [], 0, 0⟩)).delivered =
      (pickUpFood 0 (placeFood [(5, 5)]
        ⟨[⟨(5, 5), false, none, false, false, 0⟩], [], 0, 0⟩)).totalFood :=
  (C9_food_conservation (50, 50) _
    (SimReach.pickup 0 _ (SimReach.place [(5, 5)] _
      (SimReach.init [⟨(5, 5), false, none, false, false, 0⟩]
        (by intro a ha; simp at ha; rw [ha]))))).1

end Claim9

/-! ### Claim 2: `move_away_from_nest` never actually uses the distance -/

/-- `random.choice(possible_steps)` modelled with an externally supplied
random index `k`. -/
def randomChoice (steps : List (ℤ × ℤ)) (k : ℕ) : ℤ × ℤ :=
  steps.getD (k % steps.length) (0, 0)

/-- The candidate-selection loop of `AntAgent.move_away_from_nest`: it
initializes `min_dist_to_nest = float('inf')` and `best_pos = None` and, for
each possible step, replaces both when the step's distance to the nest
exceeds the tracked value (`if dist_to_nest > min_dist_to_nest`).  The
tracked value is modelled as `WithTop ℤ` holding the squared distance, with
`⊤` for the float infinity; comparisons of the source's float square roots
agree with comparisons of the integer squares. -/
def selectAwayFromNest (nest : ℤ × ℤ) (steps : List (ℤ × ℤ)) :
    Option (ℤ × ℤ) × WithTop ℤ :=
  steps.foldl
    (fun acc pos =>
      if acc.2 < (distSqZ pos nest : WithTop ℤ) then
        (some pos, (distSqZ pos nest : WithTop ℤ))
      else acc)
    (none, ⊤)

/-- `AntAgent.move_away_from_nest`: runs the selection loop and returns its
chosen step when one exists, otherwise falls back to a uniform random
neighbour.  (The `target_x`/`target_y` computation of the source is dead
code that never influences the result, and `current` is read only there.) -/
def moveAwayFromNest (nest current : ℤ × ℤ) (steps : List (ℤ × ℤ)) (k : ℕ) :
    ℤ × ℤ :=
  match (selectAwayFromNest nest steps).1 with
  | some best => best
  | none => randomChoice steps k

/-- Modelled from the spec: "move to the neighbor that maximizes distance
from the nest among reachable steps (fallback: uniform-random neighbor if
none increases distance)"; ties go to the earliest maximal step. -/
def specMoveAwayFromNest (nest current : ℤ × ℤ) (steps : List (ℤ × ℤ))
    (k : ℕ) : ℤ × ℤ :=
  if steps.any (fun p => distSqZ current nest < distSqZ p nest) then
    (steps.foldl
        (fun acc p =>
          match acc with
          | none => some p
          | some q => if distSqZ q nest < distSqZ p nest then some p else some q)
        none).getD (0, 0)
  else randomChoice steps k

/-- The selection loop never selects anything: every comparison is a strict
`>` against the running value, which starts at `+∞`. -/
theorem selectAwayFromNest_eq_none (nest : ℤ × ℤ) (steps : List (ℤ × ℤ)) :
    selectAwayFromNest nest steps = (none, ⊤) := by
  unfold selectAwayFromNest
  induction steps with
  | nil => rfl
  | cons p rest ih =>
      rw [List.foldl_cons, if_neg (by exact not_top_lt)]
      exact ih

section Claim2

/-- **C2.** The claim fails on the code: `move_away_from_nest` compares each
candidate's distance against a running minimum initialized to `float('inf')`
with a strict `>`, so the comparison is false for every candidate, `best_pos`
stays `None`, and the function always takes the uniform-random fallback —
the chosen step never depends on the nest or the current position.  At the
concrete input (nest (10,10), ant (12,10)) the spec's distance-maximizing
move (13,9) differs from the code's random fallback (11,9).  The code
contradicts its own comments ("Find step in the direction away from nest",
"Fallback to random walk if no good direction found"), so this is a code
bug. -/
theorem C2_move_away_is_always_random :
    (∀ (nest current : ℤ × ℤ) (steps : List (ℤ × ℤ)) (k : ℕ),
        moveAwayFromNest nest current steps k = randomChoice steps k) ∧
    specMoveAwayFromNest (10, 10) (12, 10)
        [(11, 9), (11, 10), (11, 11), (12, 9), (12, 11), (13, 9), (13, 10), (13, 11)] 0 ≠
      moveAwayFromNest (10, 10) (12, 10)
        [(11, 9), (11, 10), (11, 11), (12, 9), (12, 11), (13, 9), (13, 10), (13, 11)] 0 := by
  constructor
  · intro nest current steps k
    unfold moveAwayFromNest
    rw [selectAwayFromNest_eq_none]
  · decide

end Claim2

/-! ### Claim 1: decay is interleaved with moves, not run after them -/

/-- A scheduled agent, as far as the decay-ordering claim is concerned. -/
inductive SchedAgent
  | ant (id : ℕ)
  | pheromone (id : ℕ)
deriving DecidableEq

def SchedAgent.isAnt : SchedAgent → Bool
  | .ant _ => true
  | .pheromone _ => false

def SchedAgent.isPheromone : SchedAgent → Bool
  | .ant _ => false
  | .pheromone _ => true

/-- `RandomActivation.step` iterates the scheduled agents (ants and
pheromones alike — `AntColonyModel` adds both to the same schedule) in a
freshly shuffled order: an execution order is admissible iff it is a
permutation of the scheduled agents. -/
def admissibleOrder (agents order : List SchedAgent) : Prop :=
  agents.Perm order

/-- The ordering property the claim asserts: within a sub-step, every
pheromone decay step happens strictly after every ant move. -/
def decayAfterAllMoves (order : List SchedAgent) : Prop :=
  ∀ i j : Fin order.length,
    (order.get i).isPheromone = true → (order.get j).isAnt = true → j < i

/-- One sub-step (`self.schedule.step()`): each scheduled agent steps once
in the shuffled order; a pheromone's step multiplies its tracked strength by
the evaporation factor; ant steps leave the strengths tracked here
unchanged. -/
def runSubstep (factor : ℚ) (order : List SchedAgent) (str : ℕ → ℚ) : ℕ → ℚ :=
  order.foldl
    (fun s ag =>
      match ag with
      | .pheromone i => fun j => if j = i then s j * factor else s j
      | .ant _ => s)
    str

theorem runSubstep_eq_pow (factor : ℚ) (order : List SchedAgent) (str : ℕ → ℚ)
    (i : ℕ) :
    runSubstep factor order str i =
      str i * factor ^ (order.count (SchedAgent.pheromone i)) := by
  induction order generalizing str with
  | nil => simp [runSubstep]
  | cons ag rest ih =>
      cases ag with
      | ant n =>
          rw [runSubstep, List.foldl_cons]
          have hcount : (SchedAgent.ant n :: rest).count (SchedAgent.pheromone i) =
              rest.count (SchedAgent.pheromone i) := by
            rw [List.count_cons]
            simp
          rw [hcount]
          exact ih str
      | pheromone n =>
          rw [runSubstep, List.foldl_cons]
          by_cases hn : n = i
          · subst hn
            have hcount : (SchedAgent.pheromone n :: rest).count
                (SchedAgent.pheromone n) = rest.count (SchedAgent.pheromone n) + 1 := by
              rw [List.count_cons]
              simp
            rw [hcount]
            have := ih (fun j => if j = n then str j * factor else str j)
            rw [runSubstep] at this
            rw [this]
            simp [pow_succ]
            ring
          · have hcount : (SchedAgent.pheromone n :: rest).count
                (SchedAgent.pheromone i) = rest.count (SchedAgent.pheromone i) := by
              rw [List.count_cons]
              simp [hn]
            rw [hcount]
            have := ih (fun j => if j = n then str j * factor else str j)
            rw [runSubstep] at this
            rw [this, if_neg (fun h => hn h.symm)]

section Claim1

/-- **C1.** The claim is false on the code: pheromone agents sit in the same
`RandomActivation` schedule as the ants, so a sub-step executes decay steps
interleaved with ant moves in the shuffled order — there are admissible
orders in which a pheromone decays before an ant moves. -/
theorem C1_decay_not_after_all_moves :
    ¬ ∀ agents order : List SchedAgent,
        admissibleOrder agents order → decayAfterAllMoves order := by
  intro h
  have hperm : admissibleOrder [SchedAgent.ant 0, SchedAgent.pheromone 1]
      [SchedAgent.pheromone 1, SchedAgent.ant 0] :=
    List.Perm.swap (SchedAgent.pheromone 1) (SchedAgent.ant 0) []
  have hord := h _ _ hperm ⟨0, by norm_num⟩ ⟨1, by norm_num⟩ rfl rfl
  exact absurd hord (by decide)

/-- **C1 (amended).** What does hold: in every admissible sub-step order over
a duplicate-free schedule, each scheduled pheromone has its decay applied
exactly once during the sub-step (its strength is multiplied by the factor
exactly once) — but the decay steps are interleaved with the agent moves in
the shuffled activation order rather than running after all of them. -/
theorem C1_each_pheromone_decays_once_per_substep (agents order : List SchedAgent)
    (hadm : admissibleOrder agents order) (hnd : agents.Nodup) (factor : ℚ)
    (str : ℕ → ℚ) (i : ℕ) (hmem : SchedAgent.pheromone i ∈ agents) :
    runSubstep factor order str i = str i * factor := by
  rw [runSubstep_eq_pow]
  have hperm : agents.Perm order := hadm
  have hcount : order.count (SchedAgent.pheromone i) = 1 := by
    rw [← hperm.count_eq]
    exact List.count_eq_one_of_mem hnd hmem
  rw [hcount, pow_one]

/-- Witness for the amended C1: with schedule {ant 0, pheromone 1} and the
shuffled order [pheromone 1, ant 0], pheromone 1's strength 1 is multiplied
by the factor 1/2 exactly once. -/
theorem C1_each_pheromone_decays_once_per_substep_witness :
    runSubstep (1 / 2) [SchedAgent.pheromone 1, SchedAgent.ant 0]
        (fun j => 1) 1 = (fun j : ℕ => (1 : ℚ)) 1 * (1 / 2) :=
  C1_each_pheromone_decays_once_per_substep
    [SchedAgent.ant 0, SchedAgent.pheromone 1]
    [SchedAgent.pheromone 1, SchedAgent.ant 0]
    (List.Perm.swap (SchedAgent.pheromone 1) (SchedAgent.ant 0) [])
    (by decide) (1 / 2) (fun j => 1) 1 (by decide)

end Claim1

/-! ### Claim 3: the initial direction draw bypasses the shared generator -/

/-- An abstract stream of random draws with a position counter; only which
stream is consumed matters to the claim, not the drawn values. -/
structure RngState where
  seed : ℕ
  counter : ℕ
deriving DecidableEq

/-- Draw the next value and advance the stream. -/
def RngState.draw (g : RngState) : ℕ × RngState :=
  (g.seed + g.counter, { g with counter := g.counter + 1 })

/-- The fields `AntAgent.__init__` initializes. -/
structure AntInit where
  carryingFood : Bool
  direction : ℕ
  lastDirection : Option (ℤ × ℤ)
  detectionRadius : ℕ
  lastFoodPos : Option (ℤ × ℤ)
  returningToFood : Bool
  followingPheromones : Bool
  justDroppedFood : Bool
  explorationCooldown : ℕ
deriving DecidableEq

/-- `AntAgent.__init__`: `direction = np.random.randint(8)` draws from
numpy's global generator (`np.random`), not from the model's seedable
`self.random`; every other field is a constant.  Both generator states are
threaded and returned. -/
def antInit (npGen modelGen : RngState) : AntInit × RngState × RngState :=
  (⟨false, (npGen.draw).1 % 8, none, 2, none, false, false, false, 0⟩,
    (npGen.draw).2, modelGen)

/-- The single-shared-generator property the claim asserts for ant
initialization: no draw consumes from numpy's global generator. -/
def antInitUsesOnlySharedGen : Prop :=
  ∀ npGen modelGen : RngState, (antInit npGen modelGen).2.1 = npGen

/-- All `AntAgent.__init__` state except the `direction` field. -/
def AntInit.core (a : AntInit) :
    Bool × Option (ℤ × ℤ) × ℕ × Option (ℤ × ℤ) × Bool × Bool × Bool × ℕ :=
  (a.carryingFood, a.lastDirection, a.detectionRadius, a.lastFoodPos,
    a.returningToFood, a.followingPheromones, a.justDroppedFood,
    a.explorationCooldown)

section Claim3

/-- **C3.** The claim is false on the code: `AntAgent.__init__` draws the
ant's initial `direction` via `np.random.randint(8)` (agents.py line 25),
consuming from numpy's global generator, so not every random draw of the
engine comes from the single seedable generator shared by the engine
(`self.random`). -/
theorem C3_not_single_generator : ¬ antInitUsesOnlySharedGen := by
  intro h
  have h0 := h ⟨0, 0⟩ ⟨0, 0⟩
  simp [antInit, RngState.draw] at h0

/-- **C3 (amended).** What does hold: the only engine draw outside the
shared model generator is the ant's initial `direction`
(`np.random.randint(8)`); `antInit` consumes exactly one numpy draw, leaves
the model generator untouched, and every initialized field other than
`direction` is independent of the numpy stream. -/
theorem C3_only_direction_uses_numpy (np np' m : RngState) :
    (antInit np m).1.core = (antInit np' m).1.core ∧
    (antInit np m).2.2 = m ∧
    (antInit np m).2.1.counter = np.counter + 1 := by
  refine ⟨rfl, rfl, rfl⟩

end Claim3





end AntColony
